import Mathlib

/-!
Verification development for the NED student-list viewer (`app.py`).

The program loads a CSV roster of students, derives a "Batch" label from the
`Enrollment_Number` string when the CSV has no `Batch` column, lets the user
filter by batch and search by name, and exports the batch-filtered table as CSV.

Shallow embedding conventions:
* Strings are Lean `String`s; character-level work happens on `String.data`.
* Python `re` digit class `\d` is modelled as the ASCII digit test
  `Char.isDigit` (the roster data and every claim here is ASCII).
* A missing/NaN cell of a pandas column is modelled as `none : Option String`.
* `re.search` of the fixed-width patterns used by `extract_batch_year` is
  modelled as a left-to-right scan (`reFind`) trying a fixed-shape match at
  each start position, which is exactly leftmost-match semantics for these
  patterns.
-/

/-- Model of `re.search(r'(\d{4})-(\d{4})', s)` tried at one start position:
four digits, a hyphen, four digits, anything after. Returns the two groups. -/
def matchP1 : List Char → Option (List Char × List Char)
  | a :: b :: c :: d :: h :: e :: f :: g :: k :: _ =>
    if a.isDigit ∧ b.isDigit ∧ c.isDigit ∧ d.isDigit ∧ h = '-'
        ∧ e.isDigit ∧ f.isDigit ∧ g.isDigit ∧ k.isDigit then
      some ([a, b, c, d], [e, f, g, k])
    else
      none
  | _ => none

/-- Model of `re.search(r'/(\d{4})-', s)` tried at one start position:
a slash, four digits, a hyphen (anything may follow the hyphen). -/
def matchP2 : List Char → Option (List Char)
  | s :: a :: b :: c :: d :: h :: _ =>
    if s = '/' ∧ a.isDigit ∧ b.isDigit ∧ c.isDigit ∧ d.isDigit ∧ h = '-' then
      some [a, b, c, d]
    else
      none
  | _ => none

/-- Model of `re.search(r'/(\d{2})-(\d{2})', s)` tried at one start position. -/
def matchP3 : List Char → Option (List Char × List Char)
  | s :: a :: b :: h :: c :: d :: _ =>
    if s = '/' ∧ a.isDigit ∧ b.isDigit ∧ h = '-' ∧ c.isDigit ∧ d.isDigit then
      some ([a, b], [c, d])
    else
      none
  | _ => none

/-- Leftmost-match search: try the fixed-shape matcher `m` at each start
position from the left, as `re.search` does for a fixed-width pattern. -/
def reFind (m : List Char → Option α) : List Char → Option α
  | [] => m []
  | c :: cs =>
    match m (c :: cs) with
    | some g => some g
    | none => reFind m cs

/-- `re.search(r'(\d{4})-(\d{4})', ·)` over a whole character list. -/
def searchP1 (l : List Char) : Option (List Char × List Char) :=
  reFind matchP1 l

/-- `re.search(r'/(\d{4})-', ·)` over a whole character list. -/
def searchP2 (l : List Char) : Option (List Char) :=
  reFind matchP2 l

/-- `re.search(r'/(\d{2})-(\d{2})', ·)` over a whole character list. -/
def searchP3 (l : List Char) : Option (List Char × List Char) :=
  reFind matchP3 l

/-- Python `int(...)` on a string of decimal digits. -/
def natOfDigits (l : List Char) : Nat :=
  l.foldl (fun n c => 10 * n + (c.toNat - 48)) 0

/-- `extract_batch_year` from `app.py`, rule for rule: five `re.search`
attempts in source order (rules 4 and 5 textually repeat rules 1 and 3),
first match wins, fallback `"Unknown"`. -/
def extract_batch_year (enrollment_number : String) : String :=
  match searchP1 enrollment_number.data with
  | some (y1, y2) => String.mk y1 ++ " - " ++ String.mk y2
  | none =>
    match searchP2 enrollment_number.data with
    | some y => String.mk y ++ " - " ++ Nat.repr (natOfDigits y + 1)
    | none =>
      match searchP3 enrollment_number.data with
      | some (a, b) => "20" ++ String.mk a ++ " - " ++ ("20" ++ String.mk b)
      | none =>
        match searchP1 enrollment_number.data with
        | some (y1, y2) => String.mk y1 ++ " - " ++ String.mk y2
        | none =>
          match searchP3 enrollment_number.data with
          | some (a, b) => "20" ++ String.mk a ++ " - " ++ ("20" ++ String.mk b)
          | none => "Unknown"

/-- The three-rule version of the extractor obtained by deleting the two
duplicate rules (rules 4 and 5) from `extract_batch_year`. -/
def extract_batch_year_collapsed (enrollment_number : String) : String :=
  match searchP1 enrollment_number.data with
  | some (y1, y2) => String.mk y1 ++ " - " ++ String.mk y2
  | none =>
    match searchP2 enrollment_number.data with
    | some y => String.mk y ++ " - " ++ Nat.repr (natOfDigits y + 1)
    | none =>
      match searchP3 enrollment_number.data with
      | some (a, b) => "20" ++ String.mk a ++ " - " ++ ("20" ++ String.mk b)
      | none => "Unknown"

/-- Rule 1 as a (pattern, transform) pair: four-digit years around a hyphen. -/
def rule1 (l : List Char) : Option String :=
  (searchP1 l).map fun g => String.mk g.1 ++ " - " ++ String.mk g.2

/-- Rule 2 as a (pattern, transform) pair: `/YYYY-` gives year and year+1. -/
def rule2 (l : List Char) : Option String :=
  (searchP2 l).map fun y => String.mk y ++ " - " ++ Nat.repr (natOfDigits y + 1)

/-- Rule 3 as a (pattern, transform) pair: `/YY-YY` prefixed with "20". -/
def rule3 (l : List Char) : Option String :=
  (searchP3 l).map fun g => "20" ++ String.mk g.1 ++ " - " ++ ("20" ++ String.mk g.2)

/-- The extractor's ordered rule table; rule 4 duplicates rule 1 and rule 5
duplicates rule 3, exactly as in the source. -/
def rules : List (List Char → Option String) :=
  [rule1, rule2, rule3, rule1, rule3]

/-- First-match-wins evaluation of an ordered rule table, with fallback
`"Unknown"` when no rule matches. -/
def firstMatch : List (List Char → Option String) → List Char → String
  | [], _ => "Unknown"
  | r :: rs, l =>
    match r l with
    | some out => out
    | none => firstMatch rs l

/-!
Data model and view layer from `app.py`: `load_data`, the batch filter, the
name search, the statistics are peripheral glue; we embed the pieces the
claims are about. A pandas cell that would be NaN is `none`.
-/

/-- One data row of the source CSV file. When the file has no `Batch` column
the `batch` field is irrelevant (it is never read by `load_data`). -/
structure SourceRow where
  name : String
  enrollment : String
  roll : String
  batch : Option String
deriving DecidableEq

/-- The source CSV file: whether a `Batch` column is present, and the rows. -/
structure SourceFile where
  hasBatchColumn : Bool
  rows : List SourceRow
deriving DecidableEq

/-- A student record of the loaded DataFrame; `batch = none` models NaN. -/
structure Record where
  name : String
  enrollment : String
  roll : String
  batch : Option String
deriving DecidableEq

/-- `load_data` from `app.py`, on a readable file: read the rows; if the
`Batch` column is absent, create it by applying `extract_batch_year` to
`Enrollment_Number`; otherwise keep the supplied column untouched. -/
def load_data (f : SourceFile) : List Record :=
  if f.hasBatchColumn then
    f.rows.map fun r => ⟨r.name, r.enrollment, r.roll, r.batch⟩
  else
    f.rows.map fun r => ⟨r.name, r.enrollment, r.roll, some (extract_batch_year r.enrollment)⟩

/-- The batch filter of `main`: keep all rows for `"All"`, otherwise keep the
rows whose `Batch` equals the selection (a NaN batch never equals a label). -/
def filterByBatch (rs : List Record) (selected_batch : String) : List Record :=
  if selected_batch = "All" then rs
  else rs.filter fun r => r.batch = some selected_batch

/-- One pattern character of a Python regex against one subject character,
with `re.IGNORECASE`: `.` matches anything but a newline, a literal matches
up to ASCII case. This models the literal-and-dot fragment of `re` syntax,
the fragment this development needs. -/
def pcharMatch (p c : Char) : Bool :=
  if p = '.' then c ≠ '\n' else p.toLower = c.toLower

/-- Match a literal-and-dot pattern against the front of the subject. -/
def reMatchAt : List Char → List Char → Bool
  | [], _ => true
  | _ :: _, [] => false
  | p :: ps, c :: cs => pcharMatch p c && reMatchAt ps cs

/-- `re.search` with `re.IGNORECASE` for a literal-and-dot pattern: try every
start position from the left. -/
def reSearch (pat : List Char) : List Char → Bool
  | [] => reMatchAt pat []
  | c :: cs => reMatchAt pat (c :: cs) || reSearch pat cs

/-- `Series.str.contains(search_term, case=False)` on one cell, as used on
the `Name` column in `main`: a case-insensitive regex search, the term being
a regex pattern, not a literal. -/
def pandasStrContainsCI (name search_term : String) : Bool :=
  reSearch search_term.data name.data

/-- The name-search step of `main`: `if search_term:` (falsy on the empty
string) filter by `str.contains(search_term, case=False)`, else leave the
batch-filtered table as is. -/
def nameSearch (rs : List Record) (search_term : String) : List Record :=
  if search_term = "" then rs
  else rs.filter fun r => pandasStrContainsCI r.name search_term

/-- Modelled from the spec: a pattern is the leading segment of the subject
(plain character equality). -/
def leadEq : List Char → List Char → Bool
  | [], _ => true
  | _ :: _, [] => false
  | p :: ps, c :: cs => (p = c) && leadEq ps cs

/-- Modelled from the spec: the pattern occurs contiguously somewhere in the
subject. -/
def containsSeq : List Char → List Char → Bool
  | pat, [] => leadEq pat []
  | pat, c :: cs => leadEq pat (c :: cs) || containsSeq pat cs

/-- Modelled from the spec: "Name contains the substring, case-insensitively"
— plain substring containment after lowering both sides. -/
def strContainsCI (name term : String) : Bool :=
  containsSeq (term.data.map Char.toLower) (name.data.map Char.toLower)

/-- Characters Python `re` can treat specially in a pattern; a search term
avoiding all of them (and so also `.`) is a plain literal pattern. -/
def regexMetaChar (c : Char) : Bool :=
  c = '.' || c = '^' || c = '$' || c = '*' || c = '+' || c = '?' ||
    c = Char.ofNat 123 || c = Char.ofNat 125 || c = '[' || c = ']' ||
    c = '\\' || c = '|' || c = '(' || c = ')'

/-!
CSV export and re-parse. `main` exports `filtered_df.to_csv(index=False)`:
a header line and one line per row, fields separated by commas, every line
terminated by a newline. The parser models `pd.read_csv` on such a file for
fields free of separators/quoting (an empty field reads back as NaN).
-/

/-- Split a character list at every occurrence of `sep` (keeping empty
pieces), the way a simple CSV line/field split does. -/
def splitOnChar (sep : Char) : List Char → List (List Char)
  | [] => [[]]
  | c :: cs =>
    match splitOnChar sep cs with
    | [] => [[]]
    | g :: gs => if c = sep then [] :: g :: gs else (c :: g) :: gs

/-- The header line `to_csv` writes for the four-column student DataFrame. -/
def headerLine : List Char :=
  "Name,Enrollment_Number,Roll_Number,Batch".data

/-- One CSV data line for a record; a NaN batch serializes as an empty
field, as `to_csv` does. -/
def rowLine (r : Record) : List Char :=
  r.name.data ++ ',' :: r.enrollment.data ++ ',' :: r.roll.data ++ ','
    :: (match r.batch with | none => [] | some b => b.data)

/-- The body of the exported file: each row's line followed by a newline. -/
def csvBody : List Record → List Char
  | [] => []
  | r :: rs => rowLine r ++ '\n' :: csvBody rs

/-- `filtered_df.to_csv(index=False)`: header line, newline, then the body. -/
def toCsv (rs : List Record) : String :=
  String.mk (headerLine ++ '\n' :: csvBody rs)

/-- Parse one CSV data line back into a record (`pd.read_csv` on a simple
well-formed line): exactly four fields, the first three non-empty, an empty
`Batch` field reads as NaN. -/
def parseRow (l : List Char) : Option Record :=
  match splitOnChar ',' l with
  | [n, e, r, b] =>
    if n = [] ∨ e = [] ∨ r = [] then none
    else some ⟨String.mk n, String.mk e, String.mk r,
      if b = [] then none else some (String.mk b)⟩
  | _ => none

/-- Parse the data lines; the split of a newline-terminated file ends with
one empty piece, which terminates the recursion. -/
def parseLines : List (List Char) → Option (List Record)
  | [] => none
  | [[]] => some []
  | l :: ls => (parseRow l).bind fun r => (parseLines ls).map fun rs => r :: rs

/-- Re-parse an exported CSV string: check the header, then the data lines. -/
def fromCsv (s : String) : Option (List Record) :=
  match splitOnChar '\n' s.data with
  | [] => none
  | h :: rest => if h = headerLine then parseLines rest else none

/-- The export of `main`: the CSV text of the *batch-filtered* DataFrame
(`filtered_df`), which the search step does not touch. -/
def exportCsv (ds : List Record) (selected_batch : String) : String :=
  toCsv (filterByBatch ds selected_batch)

/-- A field value that CSV round-trips verbatim: non-empty and free of the
separator, newline, carriage return and the quote character. -/
def plainField (s : String) : Bool :=
  s ≠ "" && s.data.all fun c => ¬ (c = ',' ∨ c = '\n' ∨ c = '\r' ∨ c = '"')

/-- A record all of whose serialized fields round-trip verbatim (a NaN batch
is fine: it serializes to the empty field and reads back as NaN). -/
def plainRecord (r : Record) : Bool :=
  plainField r.name && plainField r.enrollment && plainField r.roll &&
    (match r.batch with | none => true | some b => plainField b)

/-!
Lemmas about the leftmost-match scan and the three pattern matchers.
-/

theorem reFind_eq_some {α : Type} {m : List Char → Option α} {l : List Char} {a : α}
    (h : reFind m l = some a) : ∃ pre suf, l = pre ++ suf ∧ m suf = some a := by
  induction l with
  | nil => exact ⟨[], [], rfl, h⟩
  | cons c cs ih =>
    rw [reFind] at h
    cases hm : m (c :: cs) with
    | some g =>
      rw [hm] at h
      exact ⟨[], c :: cs, rfl, by rw [hm]; exact h⟩
    | none =>
      rw [hm] at h
      obtain ⟨pre, suf, hl, hsuf⟩ := ih h
      exact ⟨c :: pre, suf, by rw [hl]; rfl, hsuf⟩

theorem reFind_isSome_append {α : Type} {m : List Char → Option α} {suf : List Char} {a : α}
    (pre : List Char) (h : m suf = some a) : (reFind m (pre ++ suf)).isSome := by
  induction pre with
  | nil =>
    cases suf with
    | nil => simp [reFind, h]
    | cons c cs => simp [reFind, h]
  | cons c pre ih =>
    rw [List.cons_append, reFind]
    cases hm : m (c :: (pre ++ suf)) with
    | some g => simp
    | none => simpa using ih

theorem matchP1_sound {l y1 y2 : List Char} (h : matchP1 l = some (y1, y2)) :
    ∃ a b c d e f g k rest,
      l = a :: b :: c :: d :: '-' :: e :: f :: g :: k :: rest ∧
        y1 = [a, b, c, d] ∧ y2 = [e, f, g, k] ∧
        a.isDigit ∧ b.isDigit ∧ c.isDigit ∧ d.isDigit ∧
        e.isDigit ∧ f.isDigit ∧ g.isDigit ∧ k.isDigit := by
  unfold matchP1 at h
  split at h
  · rename_i a b c d h9 e f g k rest
    split_ifs at h with hc
    obtain ⟨h1, h2, h3, h4, h5, h6, h7, h8, h9d⟩ := hc
    obtain ⟨hy1, hy2⟩ := Prod.mk.injEq .. ▸ Option.some.inj h
    subst h5
    exact ⟨a, b, c, d, e, f, g, k, rest, rfl, hy1.symm, hy2.symm,
      h1, h2, h3, h4, h6, h7, h8, h9d⟩
  · exact absurd h (by simp)

theorem matchP1_block {a b c d e f g k : Char} (suf : List Char)
    (h1 : a.isDigit) (h2 : b.isDigit) (h3 : c.isDigit) (h4 : d.isDigit)
    (h5 : e.isDigit) (h6 : f.isDigit) (h7 : g.isDigit) (h8 : k.isDigit) :
    matchP1 (a :: b :: c :: d :: '-' :: e :: f :: g :: k :: suf) =
      some ([a, b, c, d], [e, f, g, k]) := by
  simp [matchP1, h1, h2, h3, h4, h5, h6, h7, h8]

theorem matchP2_sound {l y : List Char} (h : matchP2 l = some y) :
    ∃ a b c d rest,
      l = '/' :: a :: b :: c :: d :: '-' :: rest ∧ y = [a, b, c, d] ∧
        a.isDigit ∧ b.isDigit ∧ c.isDigit ∧ d.isDigit := by
  unfold matchP2 at h
  split at h
  · rename_i s a b c d h6 rest
    split_ifs at h with hc
    obtain ⟨hs, h1, h2, h3, h4, h5⟩ := hc
    subst hs; subst h5
    exact ⟨a, b, c, d, rest, rfl, (Option.some.inj h).symm, h1, h2, h3, h4⟩
  · exact absurd h (by simp)

theorem matchP2_block {a b c d : Char} (suf : List Char)
    (h1 : a.isDigit) (h2 : b.isDigit) (h3 : c.isDigit) (h4 : d.isDigit) :
    matchP2 ('/' :: a :: b :: c :: d :: '-' :: suf) = some [a, b, c, d] := by
  simp [matchP2, h1, h2, h3, h4]

theorem matchP3_sound {l : List Char} {y1 y2 : List Char}
    (h : matchP3 l = some (y1, y2)) :
    ∃ a b c d rest,
      l = '/' :: a :: b :: '-' :: c :: d :: rest ∧ y1 = [a, b] ∧ y2 = [c, d] ∧
        a.isDigit ∧ b.isDigit ∧ c.isDigit ∧ d.isDigit := by
  unfold matchP3 at h
  split at h
  · rename_i s a b h4 c d rest
    split_ifs at h with hc
    obtain ⟨hs, h1, h2, h3, h5, h6⟩ := hc
    obtain ⟨hy1, hy2⟩ := Prod.mk.injEq .. ▸ Option.some.inj h
    subst hs; subst h3
    exact ⟨a, b, c, d, rest, rfl, hy1.symm, hy2.symm, h1, h2, h5, h6⟩
  · exact absurd h (by simp)

/-- The spec-side shape hypothesis of the first rule: the string contains,
somewhere, four digits, a hyphen, four digits. -/
def HasYearPair (l : List Char) : Prop :=
  ∃ pre a b c d e f g k suf,
    l = pre ++ a :: b :: c :: d :: '-' :: e :: f :: g :: k :: suf ∧
      a.isDigit ∧ b.isDigit ∧ c.isDigit ∧ d.isDigit ∧
      e.isDigit ∧ f.isDigit ∧ g.isDigit ∧ k.isDigit

theorem hasYearPair_iff_searchP1 (l : List Char) :
    HasYearPair l ↔ (searchP1 l).isSome := by
  constructor
  · rintro ⟨pre, a, b, c, d, e, f, g, k, suf, rfl, h1, h2, h3, h4, h5, h6, h7, h8⟩
    exact reFind_isSome_append pre (matchP1_block suf h1 h2 h3 h4 h5 h6 h7 h8)
  · intro hs
    obtain ⟨⟨y1, y2⟩, hg⟩ := Option.isSome_iff_exists.mp hs
    obtain ⟨pre, suf, rfl, hm⟩ := reFind_eq_some hg
    obtain ⟨a, b, c, d, e, f, g, k, rest, rfl, _, _, h1, h2, h3, h4, h5, h6, h7, h8⟩ :=
      matchP1_sound hm
    exact ⟨pre, a, b, c, d, e, f, g, k, rest, rfl, h1, h2, h3, h4, h5, h6, h7, h8⟩

/-- Appending onto a `String.mk` is `String.mk` of the appended lists. -/
theorem mk_append_eq (l : List Char) (t : String) :
    String.mk l ++ t = String.mk (l ++ t.data) := by
  cases t
  rfl

/-- A string whose first character is a digit is not `"Unknown"`. -/
theorem digit_head_ne_unknown {a : Char} (ha : a.isDigit) (rest : List Char) :
    String.mk (a :: rest) ≠ "Unknown" := by
  intro h
  have hd : a :: rest = ("Unknown" : String).data := congrArg String.data h
  have hu : ("Unknown" : String).data = 'U' :: "nknown".data := rfl
  rw [hu] at hd
  injection hd with h1 _
  rw [h1] at ha
  exact absurd ha (by decide)

/-- C3: the extractor evaluates its rules strictly in order with
first-match-wins and falls back to `"Unknown"`: it agrees everywhere with
the first-match evaluation of its ordered five-entry rule table, and on the
spec samples it returns "2001 - 2002", "2000 - 2001", "2008 - 2009" and
"Unknown" respectively. -/
theorem extract_firstMatch_and_samples :
    (∀ s : String, extract_batch_year s = firstMatch rules s.data) ∧
      extract_batch_year "NED-24012/2001-2002" = "2001 - 2002" ∧
      extract_batch_year "NED-23019/2000-" = "2000 - 2001" ∧
      extract_batch_year "NED/0073/08-09" = "2008 - 2009" ∧
      extract_batch_year "NED-ABCDE" = "Unknown" := by
  refine ⟨fun s => ?_, by decide, by decide, by decide, by decide⟩
  cases h1 : searchP1 s.data with
  | some g =>
    obtain ⟨y1, y2⟩ := g
    simp [extract_batch_year, firstMatch, rules, rule1, rule2, rule3, h1]
  | none =>
    cases h2 : searchP2 s.data with
    | some y =>
      simp [extract_batch_year, firstMatch, rules, rule1, rule2, rule3, h1, h2]
    | none =>
      cases h3 : searchP3 s.data with
      | some g =>
        obtain ⟨a, b⟩ := g
        simp [extract_batch_year, firstMatch, rules, rule1, rule2, rule3, h1, h2, h3]
      | none =>
        simp [extract_batch_year, firstMatch, rules, rule1, rule2, rule3, h1, h2, h3]

/-- C4: every string containing four digits, a hyphen, four digits is mapped
to the two matched (leftmost) four-digit groups of the string, joined by
exactly one space-hyphen-space, digits verbatim. -/
theorem extract_yearPair (s : String) (hhas : HasYearPair s.data) :
    ∃ y1 y2 pre suf,
      s.data = pre ++ y1 ++ '-' :: y2 ++ suf ∧
        y1.length = 4 ∧ y2.length = 4 ∧
        y1.all Char.isDigit ∧ y2.all Char.isDigit ∧
        extract_batch_year s = String.mk y1 ++ " - " ++ String.mk y2 := by
  have hs := (hasYearPair_iff_searchP1 s.data).mp hhas
  obtain ⟨⟨y1, y2⟩, hg⟩ := Option.isSome_iff_exists.mp hs
  obtain ⟨pre, suf, hsplit, hm⟩ := reFind_eq_some hg
  obtain ⟨a, b, c, d, e, f, g, k, rest, hsuf, hy1, hy2, h1, h2, h3, h4, h5, h6, h7, h8⟩ :=
    matchP1_sound hm
  subst hy1; subst hy2
  refine ⟨[a, b, c, d], [e, f, g, k], pre, rest, ?_, rfl, rfl,
    by simp [h1, h2, h3, h4], by simp [h5, h6, h7, h8], ?_⟩
  · rw [hsplit, hsuf]; simp
  · simp [extract_batch_year, hg]

theorem extract_yearPair_witness :
    HasYearPair ("NED-24012/2001-2002" : String).data ∧
      ∃ y1 y2 pre suf,
        ("NED-24012/2001-2002" : String).data = pre ++ y1 ++ '-' :: y2 ++ suf ∧
          y1.length = 4 ∧ y2.length = 4 ∧
          y1.all Char.isDigit ∧ y2.all Char.isDigit ∧
          extract_batch_year "NED-24012/2001-2002" = String.mk y1 ++ " - " ++ String.mk y2 :=
  have hhas : HasYearPair ("NED-24012/2001-2002" : String).data :=
    ⟨"NED-24012/".data, '2', '0', '0', '1', '2', '0', '0', '2', [], by decide,
      by decide, by decide, by decide, by decide, by decide, by decide, by decide, by decide⟩
  ⟨hhas, extract_yearPair "NED-24012/2001-2002" hhas⟩

/-- C5: the extractor is a total function on strings (it is a Lean `def`
with no partiality), and it returns `"Unknown"` exactly when no rule of its
ordered rule table matches. -/
theorem extract_unknown_iff (s : String) :
    extract_batch_year s = "Unknown" ↔ ∀ rule ∈ rules, rule s.data = none := by
  constructor
  · intro h rule hrule
    cases h1 : searchP1 s.data with
    | some g =>
      obtain ⟨y1, y2⟩ := g
      obtain ⟨pre, suf, hsplit, hm⟩ := reFind_eq_some h1
      obtain ⟨a, b, c, d, e, f, g, k, rest, _, hy1, _, ha, _⟩ := matchP1_sound hm
      rw [extract_batch_year] at h
      rw [h1] at h
      simp only at h
      rw [hy1, mk_append_eq, mk_append_eq] at h
      exact absurd h (digit_head_ne_unknown ha _)
    | none =>
      cases h2 : searchP2 s.data with
      | some y =>
        obtain ⟨pre, suf, hsplit, hm⟩ := reFind_eq_some h2
        obtain ⟨a, b, c, d, rest, _, hy, ha, _⟩ := matchP2_sound hm
        rw [extract_batch_year] at h
        rw [h1, h2] at h
        simp only at h
        rw [hy, mk_append_eq, mk_append_eq] at h
        exact absurd h (digit_head_ne_unknown ha _)
      | none =>
        cases h3 : searchP3 s.data with
        | some g =>
          obtain ⟨y1, y2⟩ := g
          rw [extract_batch_year] at h
          rw [h1, h2, h3] at h
          simp only at h
          rw [show ("20" : String) ++ String.mk y1 = String.mk ('2' :: '0' :: y1) from
            mk_append_eq ['2', '0'] (String.mk y1), mk_append_eq, mk_append_eq] at h
          exact absurd h (digit_head_ne_unknown (by decide) _)
        | none =>
          have : rule = rule1 ∨ rule = rule2 ∨ rule = rule3 := by
            simpa [rules, or_assoc, or_comm, or_left_comm] using hrule
          rcases this with rfl | rfl | rfl
          · simp [rule1, h1]
          · simp [rule2, h2]
          · simp [rule3, h3]
  · intro h
    have hr1 : rule1 s.data = none := h rule1 (by simp [rules])
    have hr2 : rule2 s.data = none := h rule2 (by simp [rules])
    have hr3 : rule3 s.data = none := h rule3 (by simp [rules])
    rw [rule1, Option.map_eq_none'] at hr1
    rw [rule2, Option.map_eq_none'] at hr2
    rw [rule3, Option.map_eq_none'] at hr3
    simp [extract_batch_year, hr1, hr2, hr3]

/-- C7: rules 4 and 5 are dead code: the five-rule extractor and the
three-rule extractor with the duplicate rules deleted are extensionally
equal. -/
theorem extract_collapsed_eq (s : String) :
    extract_batch_year s = extract_batch_year_collapsed s := by
  cases h1 : searchP1 s.data with
  | some g =>
    obtain ⟨y1, y2⟩ := g
    simp [extract_batch_year, extract_batch_year_collapsed, h1]
  | none =>
    cases h2 : searchP2 s.data with
    | some y => simp [extract_batch_year, extract_batch_year_collapsed, h1, h2]
    | none =>
      cases h3 : searchP3 s.data with
      | some g =>
        obtain ⟨a, b⟩ := g
        simp [extract_batch_year, extract_batch_year_collapsed, h1, h2, h3]
      | none => simp [extract_batch_year, extract_batch_year_collapsed, h1, h2, h3]

/-- C9: rule 2 does not require its hyphen to end the string: whenever the
string has no four-digit-hyphen-four-digit substring but contains a slash,
four digits and a hyphen followed by anything, the extractor returns the
(leftmost such) year paired with its successor — regardless of whether the
two-digit rule 3 would also match. -/
theorem extract_slashYear (s : String) (pre suf : List Char) (a b c d : Char)
    (hno : ¬ HasYearPair s.data)
    (hocc : s.data = pre ++ '/' :: a :: b :: c :: d :: '-' :: suf)
    (ha : a.isDigit) (hb : b.isDigit) (hc : c.isDigit) (hd : d.isDigit) :
    ∃ y pre2 suf2,
      y.length = 4 ∧ y.all Char.isDigit ∧
        s.data = pre2 ++ '/' :: y ++ '-' :: suf2 ∧
        extract_batch_year s = String.mk y ++ " - " ++ Nat.repr (natOfDigits y + 1) := by
  have h1 : searchP1 s.data = none := by
    cases hx : searchP1 s.data with
    | none => rfl
    | some g =>
      exact absurd ((hasYearPair_iff_searchP1 s.data).mpr (by simp [hx])) hno
  have hsome : (searchP2 s.data).isSome := by
    rw [hocc]
    exact reFind_isSome_append pre (matchP2_block suf ha hb hc hd)
  obtain ⟨y, h2⟩ := Option.isSome_iff_exists.mp hsome
  obtain ⟨pre2, suf0, hsplit, hm⟩ := reFind_eq_some h2
  obtain ⟨a2, b2, c2, d2, rest, hsuf0, hy, ha2, hb2, hc2, hd2⟩ := matchP2_sound hm
  subst hy
  refine ⟨[a2, b2, c2, d2], pre2, rest, rfl, by simp [ha2, hb2, hc2, hd2], ?_, ?_⟩
  · rw [hsplit, hsuf0]; simp
  · simp [extract_batch_year, h1, h2]

theorem extract_slashYear_witness :
    ¬ HasYearPair ("A/2000-XY" : String).data ∧
      ∃ y pre2 suf2,
        y.length = 4 ∧ y.all Char.isDigit ∧
          ("A/2000-XY" : String).data = pre2 ++ '/' :: y ++ '-' :: suf2 ∧
          extract_batch_year "A/2000-XY" = String.mk y ++ " - " ++ Nat.repr (natOfDigits y + 1) :=
  have hno : ¬ HasYearPair ("A/2000-XY" : String).data := by
    rw [hasYearPair_iff_searchP1]
    decide
  ⟨hno, extract_slashYear "A/2000-XY" "A".data "XY".data '2' '0' '0' '0' hno
    (by decide) (by decide) (by decide) (by decide) (by decide)⟩

/-- C10: rule 2 computes the end year as the exact decimal successor with no
width normalization: on `"/9999-"` the extractor returns `"9999 - 10000"`,
whose end year has five digits. -/
theorem extract_wide_end_year :
    extract_batch_year "/9999-" = "9999 - 10000" ∧
      natOfDigits ['9', '9', '9', '9'] + 1 = 10000 ∧
      (Nat.repr (natOfDigits ['9', '9', '9', '9'] + 1)).length = 5 := by
  decide

/-!
Concrete sample data used by witnesses and counterexamples.
-/

/-- A sample record whose `Name` is "Anita". -/
def anita : Record := ⟨"Anita", "NED-24012/2001-2002", "CT-01", some "2001 - 2002"⟩

/-- A sample record whose `Name` is "Farhan". -/
def farhan : Record := ⟨"Farhan", "NED-23019/2000-", "CT-02", some "2000 - 2001"⟩

/-- A readable source file that has a `Batch` column with one empty cell. -/
def fileWithHole : SourceFile := ⟨true, [⟨"Aslam", "NED-ABCDE", "CT-03", none⟩]⟩

/-- A readable source file with no `Batch` column. -/
def fileNoBatchCol : SourceFile := ⟨false, [⟨"Anita", "NED/0001/04-05", "CT-01", none⟩]⟩

/-- A readable source file with a `Batch` column holding an empty string and
a missing value. -/
def fileSupplied : SourceFile :=
  ⟨true, [⟨"A", "E", "R", some ""⟩, ⟨"B", "F", "S", none⟩]⟩

/-- C2 counterexample: on a readable file whose `Batch` column is present but
has an empty (NaN) cell, `load_data` keeps the null batch, so not every
loaded record has a non-null Batch label. -/
theorem load_null_batch_counterexample :
    load_data fileWithHole = [⟨"Aslam", "NED-ABCDE", "CT-03", none⟩] ∧
      ∃ r ∈ load_data fileWithHole, r.batch = none := by
  decide

/-- C2 (amended): after `load_data` on a readable file whose `Batch` column
is absent, every record's Batch is non-null: it is the extractor's value of
the record's enrollment number ("Unknown" in the worst case). When the
column is present the supplied values, null ones included, are used. -/
theorem load_batch_nonnull_of_derived (f : SourceFile)
    (hf : f.hasBatchColumn = false) :
    ∀ r ∈ load_data f, r.batch = some (extract_batch_year r.enrollment) := by
  intro r hr
  rw [load_data, hf] at hr
  simp only [Bool.false_eq_true, if_false, List.mem_map] at hr
  obtain ⟨a, -, rfl⟩ := hr
  rfl

theorem load_batch_nonnull_of_derived_witness :
    fileNoBatchCol.hasBatchColumn = false ∧
      (⟨"Anita", "NED/0001/04-05", "CT-01", some "2004 - 2005"⟩ : Record) ∈
        load_data fileNoBatchCol ∧
      (⟨"Anita", "NED/0001/04-05", "CT-01", some "2004 - 2005"⟩ : Record).batch =
        some (extract_batch_year "NED/0001/04-05") :=
  ⟨rfl, by decide, load_batch_nonnull_of_derived fileNoBatchCol rfl _ (by decide)⟩

/-- C8: when the source file does have a `Batch` column, `load_data` uses
its values verbatim for every row — empty or missing ones included — and
derives nothing. -/
theorem load_preserves_supplied_batch (f : SourceFile)
    (hf : f.hasBatchColumn = true) :
    load_data f = f.rows.map (fun r => ⟨r.name, r.enrollment, r.roll, r.batch⟩) ∧
      (load_data f).map Record.batch = f.rows.map SourceRow.batch := by
  refine ⟨by rw [load_data, hf]; simp, ?_⟩
  rw [load_data, hf]
  simp [List.map_map]

theorem load_preserves_supplied_batch_witness :
    fileSupplied.hasBatchColumn = true ∧
      load_data fileSupplied = [⟨"A", "E", "R", some ""⟩, ⟨"B", "F", "S", none⟩] ∧
      (load_data fileSupplied).map Record.batch = [some "", none] :=
  ⟨rfl, ((load_preserves_supplied_batch fileSupplied rfl).1).trans (by decide),
    ((load_preserves_supplied_batch fileSupplied rfl).2).trans (by decide)⟩

/-!
Name search: relating the code's case-insensitive regex containment to
plain case-insensitive substring containment, for metacharacter-free terms.
-/

theorem containsSeq_nil (l : List Char) : containsSeq [] l = true := by
  cases l <;> rfl

theorem reMatchAt_literal (pat : List Char)
    (hpat : pat.all (fun c => !regexMetaChar c) = true) :
    ∀ hay : List Char,
      reMatchAt pat hay = leadEq (pat.map Char.toLower) (hay.map Char.toLower) := by
  induction pat with
  | nil => intro hay; cases hay <;> rfl
  | cons p ps ih =>
    intro hay
    rw [List.all_cons, Bool.and_eq_true] at hpat
    obtain ⟨hp, hps⟩ := hpat
    have hdot : p ≠ '.' := by
      intro hp2
      rw [hp2] at hp
      exact absurd hp (by decide)
    cases hay with
    | nil => rfl
    | cons c cs =>
      simp only [reMatchAt, List.map_cons, leadEq, pcharMatch, if_neg hdot, ih hps cs]

theorem reSearch_literal (pat : List Char)
    (hpat : pat.all (fun c => !regexMetaChar c) = true) :
    ∀ hay : List Char,
      reSearch pat hay = containsSeq (pat.map Char.toLower) (hay.map Char.toLower) := by
  intro hay
  induction hay with
  | nil => exact reMatchAt_literal pat hpat []
  | cons c cs ih =>
    simp only [reSearch, List.map_cons, containsSeq, ih,
      reMatchAt_literal pat hpat (c :: cs), List.map_cons]

theorem pandasContains_eq_substr (name term : String)
    (hterm : term.data.all (fun c => !regexMetaChar c) = true) :
    pandasStrContainsCI name term = strContainsCI name term := by
  rw [pandasStrContainsCI, strContainsCI]
  exact reSearch_literal term.data hterm name.data

/-- C6 counterexample: searching with the term "." (a regex metacharacter),
the code keeps the record named "Anita", although "Anita" does not contain
"." as a substring — the search is regex containment, not substring
containment, so the claim fails as stated for this term. -/
theorem nameSearch_regex_counterexample :
    nameSearch [anita] "." = [anita] ∧ strContainsCI "Anita" "." = false := by
  decide

/-- C6 (amended): for search terms free of regex metacharacters, the name
search returns exactly the subsequence of the batch-filtered set whose Name
contains the term as a substring, case-insensitively (the empty term leaves
the set unchanged); and "an" matches both "Anita" and "Farhan". For terms
with metacharacters the code does regex containment instead. -/
theorem nameSearch_substring :
    (∀ (rs : List Record) (term : String),
        term.data.all (fun c => !regexMetaChar c) = true →
        nameSearch rs term = rs.filter fun r => strContainsCI r.name term) ∧
      strContainsCI "Anita" "an" = true ∧ strContainsCI "Farhan" "an" = true := by
  refine ⟨fun rs term hterm => ?_, by decide, by decide⟩
  by_cases h : term = ""
  · subst h
    rw [nameSearch, if_pos rfl]
    refine (List.filter_eq_self.mpr fun r _ => ?_).symm
    rw [strContainsCI]
    exact containsSeq_nil _
  · rw [nameSearch, if_neg h]
    exact List.filter_congr fun r _ => pandasContains_eq_substr r.name term hterm

theorem nameSearch_substring_witness :
    (("an" : String).data.all (fun c => !regexMetaChar c) = true) ∧
      nameSearch [anita, farhan] "an" = [anita, farhan] :=
  ⟨by decide, (nameSearch_substring.1 [anita, farhan] "an" (by decide)).trans (by decide)⟩

/-!
CSV round-trip lemmas.
-/

theorem splitOnChar_ne_nil (sep : Char) (l : List Char) : splitOnChar sep l ≠ [] := by
  induction l with
  | nil => simp [splitOnChar]
  | cons c cs ih =>
    rw [splitOnChar]
    cases hsl : splitOnChar sep cs with
    | nil => simp
    | cons g gs =>
      by_cases hc : c = sep <;> simp [hc]

theorem splitOnChar_not_mem {sep : Char} {l : List Char} (h : sep ∉ l) :
    splitOnChar sep l = [l] := by
  induction l with
  | nil => rfl
  | cons c cs ih =>
    rw [List.mem_cons, not_or] at h
    obtain ⟨hc, hcs⟩ := h
    have hcc : ¬ c = sep := fun hx => hc hx.symm
    rw [splitOnChar, ih hcs]
    simp [hcc]

theorem splitOnChar_append {sep : Char} (l r : List Char) (h : sep ∉ l) :
    splitOnChar sep (l ++ sep :: r) = l :: splitOnChar sep r := by
  induction l with
  | nil =>
    cases hsl : splitOnChar sep r with
    | nil => exact absurd hsl (splitOnChar_ne_nil sep r)
    | cons g gs => simp [splitOnChar, hsl]
  | cons c cs ih =>
    rw [List.mem_cons, not_or] at h
    obtain ⟨hc, hcs⟩ := h
    have hcc : ¬ c = sep := fun hx => hc hx.symm
    rw [List.cons_append, splitOnChar, ih hcs]
    simp [hcc]

theorem plainField_not_mem {s : String} (h : plainField s = true) :
    ',' ∉ s.data ∧ '\n' ∉ s.data := by
  rw [plainField, Bool.and_eq_true, List.all_eq_true] at h
  obtain ⟨-, h2⟩ := h
  constructor
  · intro hm
    have h3 := h2 _ hm
    simp at h3
  · intro hm
    have h3 := h2 _ hm
    simp at h3

theorem plainField_ne_nil {s : String} (h : plainField s = true) : s.data ≠ [] := by
  simp only [plainField, Bool.and_eq_true, decide_eq_true_eq] at h
  intro hd
  apply h.1
  cases s with
  | mk d =>
    rw [show d = [] from hd]

theorem plainRecord_fields {r : Record} (h : plainRecord r = true) :
    plainField r.name = true ∧ plainField r.enrollment = true ∧
      plainField r.roll = true ∧
      (match r.batch with | none => true | some b => plainField b) = true := by
  rw [plainRecord, Bool.and_eq_true, Bool.and_eq_true, Bool.and_eq_true] at h
  exact ⟨h.1.1.1, h.1.1.2, h.1.2, h.2⟩

/-- The serialized batch field of a record. -/
def batchField (r : Record) : List Char :=
  match r.batch with | none => [] | some b => b.data

theorem rowLine_assoc (r : Record) :
    rowLine r = r.name.data ++ ',' ::
      (r.enrollment.data ++ ',' :: (r.roll.data ++ ',' :: batchField r)) := by
  rw [rowLine, batchField]
  simp [List.append_assoc]

theorem splitOnChar_rowLine (r : Record) (h : plainRecord r = true) :
    splitOnChar ',' (rowLine r) =
      [r.name.data, r.enrollment.data, r.roll.data, batchField r] := by
  obtain ⟨hn, he, hr, hb⟩ := plainRecord_fields h
  have hbm : ',' ∉ batchField r := by
    rw [batchField]
    cases hx : r.batch with
    | none => simp
    | some b =>
      rw [hx] at hb
      exact (plainField_not_mem hb).1
  rw [rowLine_assoc,
    splitOnChar_append _ _ (plainField_not_mem hn).1,
    splitOnChar_append _ _ (plainField_not_mem he).1,
    splitOnChar_append _ _ (plainField_not_mem hr).1,
    splitOnChar_not_mem hbm]

theorem mk_data (s : String) : String.mk s.data = s := by
  cases s
  rfl

theorem parseRow_rowLine (r : Record) (h : plainRecord r = true) :
    parseRow (rowLine r) = some r := by
  obtain ⟨hn, he, hr, hb⟩ := plainRecord_fields h
  rw [parseRow, splitOnChar_rowLine r h]
  show (if r.name.data = [] ∨ r.enrollment.data = [] ∨ r.roll.data = [] then none
    else some ⟨String.mk r.name.data, String.mk r.enrollment.data, String.mk r.roll.data,
      if batchField r = [] then none else some (String.mk (batchField r))⟩) = some r
  rw [if_neg (by
    simp only [not_or]
    exact ⟨plainField_ne_nil hn, plainField_ne_nil he, plainField_ne_nil hr⟩)]
  cases r with
  | mk nm en ro ba =>
    cases hx : ba with
    | none =>
      simp only [batchField, hx, if_pos rfl]
      simp [mk_data]
    | some b =>
      have hbne : b.data ≠ [] := by
        rw [hx] at hb
        exact plainField_ne_nil hb
      simp only [batchField, hx, if_neg hbne]

theorem rowLine_not_mem_newline (r : Record) (h : plainRecord r = true) :
    '\n' ∉ rowLine r := by
  obtain ⟨hn, he, hr, hb⟩ := plainRecord_fields h
  rw [rowLine_assoc]
  intro hm
  rcases List.mem_append.mp hm with hm1 | hm2
  · exact (plainField_not_mem hn).2 hm1
  · rcases List.mem_cons.mp hm2 with hc | hm3
    · exact absurd hc (by decide)
    · rcases List.mem_append.mp hm3 with hm4 | hm5
      · exact (plainField_not_mem he).2 hm4
      · rcases List.mem_cons.mp hm5 with hc | hm6
        · exact absurd hc (by decide)
        · rcases List.mem_append.mp hm6 with hm7 | hm8
          · exact (plainField_not_mem hr).2 hm7
          · rcases List.mem_cons.mp hm8 with hc | hm9
            · exact absurd hc (by decide)
            · rw [batchField] at hm9
              cases hx : r.batch with
              | none => rw [hx] at hm9; simp at hm9
              | some b =>
                rw [hx] at hm9
                rw [hx] at hb
                exact (plainField_not_mem hb).2 hm9

theorem rowLine_ne_nil (r : Record) (h : plainRecord r = true) : rowLine r ≠ [] := by
  obtain ⟨hn, -, -, -⟩ := plainRecord_fields h
  rw [rowLine_assoc]
  intro hx
  rcases List.append_eq_nil.mp hx with ⟨h1, -⟩
  exact plainField_ne_nil hn h1

theorem parseLines_csvBody (rs : List Record) (h : rs.all plainRecord = true) :
    parseLines (splitOnChar '\n' (csvBody rs)) = some rs := by
  induction rs with
  | nil => rfl
  | cons r rs ih =>
    rw [List.all_cons, Bool.and_eq_true] at h
    obtain ⟨hr, hrs⟩ := h
    rw [csvBody, splitOnChar_append _ _ (rowLine_not_mem_newline r hr)]
    obtain ⟨c, t, hct⟩ := List.exists_cons_of_ne_nil (rowLine_ne_nil r hr)
    rw [hct]
    show (parseRow (c :: t)).bind
        (fun r2 => (parseLines (splitOnChar '\n' (csvBody rs))).map fun rs2 => r2 :: rs2) =
      some (r :: rs)
    rw [← hct, parseRow_rowLine r hr, ih hrs]
    rfl

/-- C1 counterexample: dataset `[anita, farhan]`, batch selection "All",
search term "far": the table after batch + search shows only `farhan`, but
re-parsing the export yields both records — `anita`, excluded by the name
search, appears in the exported file, because the code exports
`filtered_df` (batch-filtered only), not the search results. -/
theorem export_ignores_search_counterexample :
    nameSearch (filterByBatch [anita, farhan] "All") "far" = [farhan] ∧
      fromCsv (exportCsv [anita, farhan] "All") = some [anita, farhan] ∧
      anita ∈ [anita, farhan] ∧ anita ∉ [farhan] := by
  decide

/-- C1 (amended): the Export operation serializes exactly the batch-filtered
sequence — the name-search term plays no role in it — and for records whose
fields are CSV-plain, re-parsing the exported text yields precisely the
batch-filtered rows, in order. Records excluded by an active name search
still appear in the export. -/
theorem export_roundtrip (ds : List Record) (sel : String)
    (h : (filterByBatch ds sel).all plainRecord = true) :
    fromCsv (exportCsv ds sel) = some (filterByBatch ds sel) := by
  have hdata : (toCsv (filterByBatch ds sel)).data =
      headerLine ++ '\n' :: csvBody (filterByBatch ds sel) := rfl
  rw [exportCsv, fromCsv, hdata, splitOnChar_append _ _ (by decide)]
  show (if headerLine = headerLine then
      parseLines (splitOnChar '\n' (csvBody (filterByBatch ds sel))) else none) =
    some (filterByBatch ds sel)
  rw [if_pos rfl]
  exact parseLines_csvBody _ h

theorem export_roundtrip_witness :
    (filterByBatch [anita, farhan] "All").all plainRecord = true ∧
      fromCsv (exportCsv [anita, farhan] "All") = some (filterByBatch [anita, farhan] "All") :=
  ⟨by decide, export_roundtrip [anita, farhan] "All" (by decide)⟩
